import Mathlib

/-!
Verification of the Uniswap V3 simulation engine.

The JavaScript sources (uniswap_v3_calculations and uniswap_v3_swap_simulation)
are embedded shallowly: JS numbers are modelled as exact real numbers, so every
arithmetic formula of the source is carried over verbatim (division by zero is
the junk value 0, as usual for fields in Lean).  Math.log, Math.sqrt and
Math.pow become Real.log, Real.sqrt and zpow.  The while loop of executeSwap is
modelled by a fuel-indexed recursion together with a theorem showing the fuel
bound used by executeSwap always suffices.
-/

noncomputable section

namespace UniswapV3

/-- Q96, the fixed-point scale 2^96 used by the sqrt-price representation. -/
def Q96 : ℝ := 2 ^ 96

/-- MIN_TICK constant from uniswap_v3_calculations. -/
def MIN_TICK : ℤ := -887272

/-- MAX_TICK constant from uniswap_v3_calculations. -/
def MAX_TICK : ℤ := 887272

/-- priceToTick from uniswap_v3_calculations: Math.floor(Math.log(price) / Math.log(1.0001)).
There is no validity check on price in the source. -/
def priceToTick (price : ℝ) : ℤ :=
  ⌊Real.log price / Real.log 1.0001⌋

/-- tickToPrice from uniswap_v3_calculations: Math.pow(1.0001, tick).
There is no range check on tick in the source. -/
def tickToPrice (tick : ℤ) : ℝ :=
  1.0001 ^ tick

/-- priceToSqrtPriceX96: Math.sqrt(price) * Q96. -/
def priceToSqrtPriceX96 (price : ℝ) : ℝ :=
  Real.sqrt price * Q96

/-- sqrtPriceX96ToPrice: Math.pow(sqrtPriceX96 / Q96, 2). -/
def sqrtPriceX96ToPrice (sqrtPriceX96 : ℝ) : ℝ :=
  (sqrtPriceX96 / Q96) ^ 2

/-- calculateLiquidity0: amount0 * A * B / (B - A). -/
def calculateLiquidity0 (sqrtPriceAX96 sqrtPriceBX96 amount0 : ℝ) : ℝ :=
  amount0 * sqrtPriceAX96 * sqrtPriceBX96 / (sqrtPriceBX96 - sqrtPriceAX96)

/-- calculateLiquidity1: amount1 / (B - A). -/
def calculateLiquidity1 (sqrtPriceAX96 sqrtPriceBX96 amount1 : ℝ) : ℝ :=
  amount1 / (sqrtPriceBX96 - sqrtPriceAX96)

/-- getLiquidityForAmounts: swaps inverted bounds, then three price regimes
(at or below the lower bound, strictly inside, at or above the upper bound). -/
def getLiquidityForAmounts (sqrtPriceX96 sqrtPriceAX96 sqrtPriceBX96 amount0 amount1 : ℝ) : ℝ :=
  let A := if sqrtPriceBX96 < sqrtPriceAX96 then sqrtPriceBX96 else sqrtPriceAX96
  let B := if sqrtPriceBX96 < sqrtPriceAX96 then sqrtPriceAX96 else sqrtPriceBX96
  if sqrtPriceX96 ≤ A then
    calculateLiquidity0 A B amount0
  else if sqrtPriceX96 < B then
    min (calculateLiquidity0 sqrtPriceX96 B amount0) (calculateLiquidity1 A sqrtPriceX96 amount1)
  else
    calculateLiquidity1 A B amount1

/-- calculateAmount0: liquidity * (B - A) / (A * B). -/
def calculateAmount0 (sqrtPriceAX96 sqrtPriceBX96 liquidity : ℝ) : ℝ :=
  liquidity * (sqrtPriceBX96 - sqrtPriceAX96) / (sqrtPriceAX96 * sqrtPriceBX96)

/-- calculateAmount1: liquidity * (B - A). -/
def calculateAmount1 (sqrtPriceAX96 sqrtPriceBX96 liquidity : ℝ) : ℝ :=
  liquidity * (sqrtPriceBX96 - sqrtPriceAX96)

/-- Pair of token amounts returned by getAmountsForLiquidity. -/
structure Amounts where
  amount0 : ℝ
  amount1 : ℝ

/-- getAmountsForLiquidity: swaps inverted bounds, then the same three regimes
as getLiquidityForAmounts; outside the range only one amount is nonzero. -/
def getAmountsForLiquidity (sqrtPriceX96 sqrtPriceAX96 sqrtPriceBX96 liquidity : ℝ) : Amounts :=
  let A := if sqrtPriceBX96 < sqrtPriceAX96 then sqrtPriceBX96 else sqrtPriceAX96
  let B := if sqrtPriceBX96 < sqrtPriceAX96 then sqrtPriceAX96 else sqrtPriceBX96
  if sqrtPriceX96 ≤ A then
    { amount0 := calculateAmount0 A B liquidity, amount1 := 0 }
  else if sqrtPriceX96 < B then
    { amount0 := calculateAmount0 sqrtPriceX96 B liquidity
      amount1 := calculateAmount1 A sqrtPriceX96 liquidity }
  else
    { amount0 := 0, amount1 := calculateAmount1 A B liquidity }

/-- Result record of computeSwapStep: { amountOut, newSqrtPriceX96 }. -/
structure SwapStepOut where
  amountOut : ℝ
  newSqrtPriceX96 : ℝ

/-- computeSwapStep from uniswap_v3_calculations.  The fee is applied first;
amounts below 1e-10 take the simplified spot-price branch; otherwise the
direction determines the price-delta formula. -/
def computeSwapStep (amountIn sqrtPriceX96 liquidity feeTier : ℝ) (zeroForOne : Bool) :
    SwapStepOut :=
  let amountInWithFee := amountIn * (1 - feeTier)
  if amountIn < 1 / 10 ^ 10 then
    if zeroForOne then
      { amountOut := amountInWithFee * sqrtPriceX96ToPrice sqrtPriceX96
        newSqrtPriceX96 := sqrtPriceX96 * (1 - amountIn / (liquidity * 1000)) }
    else
      { amountOut := amountInWithFee / sqrtPriceX96ToPrice sqrtPriceX96
        newSqrtPriceX96 := sqrtPriceX96 * (1 + amountIn / (liquidity * 1000)) }
  else if zeroForOne then
    let priceDelta := amountInWithFee * sqrtPriceX96 / liquidity
    let newSqrtPriceX96 := sqrtPriceX96 - priceDelta
    { amountOut := liquidity * (sqrtPriceX96 - newSqrtPriceX96)
      newSqrtPriceX96 := newSqrtPriceX96 }
  else
    let priceDelta := amountInWithFee / liquidity
    let newSqrtPriceX96 := sqrtPriceX96 + priceDelta
    { amountOut := liquidity * (1 / newSqrtPriceX96 - 1 / sqrtPriceX96) * (sqrtPriceX96 * newSqrtPriceX96)
      newSqrtPriceX96 := newSqrtPriceX96 }

/-- Tick record stored by the simulator: index, liquidityNet, liquidityGross. -/
structure Tick where
  index : ℤ
  liquidityNet : ℝ
  liquidityGross : ℝ

/-- insertTick models addTick's push followed by the stable sort by index: on the
always-sorted tick list this places the new entry after all entries with a
smaller or equal index. -/
def insertTick (t : Tick) : List Tick → List Tick
  | [] => [t]
  | b :: l => if t.index < b.index then t :: b :: l else b :: insertTick t l

/-- addTick from UniswapV3SwapSimulator: record a tick entry and keep the
collection sorted by index (duplicate indices are kept, not merged). -/
def addTick (ticks : List Tick) (tickIndex : ℤ) (liquidityNet liquidityGross : ℝ) : List Tick :=
  insertTick { index := tickIndex, liquidityNet := liquidityNet, liquidityGross := liquidityGross } ticks

/-- Liquidity position between two tick boundaries. -/
structure Position where
  lowerTick : ℤ
  upperTick : ℤ
  liquidity : ℝ

/-- addPositionTicks: the two addTick calls recorded for one position,
addTick(lowerTick, +L, L) then addTick(upperTick, -L, L). -/
def addPositionTicks (ticks : List Tick) (p : Position) : List Tick :=
  addTick (addTick ticks p.lowerTick p.liquidity p.liquidity) p.upperTick (-p.liquidity) p.liquidity

/-- buildFromPositions models initializePoolFromPositions at the tick level:
every supplied position contributes its two tick entries. -/
def buildFromPositions (positions : List Position) : List Tick :=
  positions.foldl addPositionTicks []

/-- getActiveLiquidity from UniswapV3SwapSimulator: walk the sorted tick list
summing liquidityNet while index ≤ currentTick, stopping at the first larger
index. -/
def getActiveLiquidity : List Tick → ℤ → ℝ
  | [], _ => 0
  | t :: ts, currentTick =>
    if t.index ≤ currentTick then t.liquidityNet + getActiveLiquidity ts currentTick else 0

/-- findNextTick from UniswapV3SwapSimulator: for zeroForOne, scan the sorted
list from the top for the first index strictly below currentTick; otherwise
scan from the bottom for the first index strictly above. -/
def findNextTick (ticks : List Tick) (currentTick : ℤ) (zeroForOne : Bool) : Option Tick :=
  if zeroForOne then ticks.reverse.find? (fun t => t.index < currentTick)
  else ticks.find? (fun t => currentTick < t.index)

/-- Mutable state of UniswapV3SwapSimulator that executeSwap reads and writes. -/
structure SimState where
  feeTier : ℝ
  currentPrice : ℝ
  currentSqrtPriceX96 : ℝ
  currentTick : ℤ
  liquidityTicks : List Tick

/-- SCALE_FACTOR = 1e18, the scaling constant of executeSwap. -/
def SCALE_FACTOR : ℝ := 10 ^ 18

/-- One entry of the swapSteps trace. -/
structure SwapStep where
  amountIn : ℝ
  amountOut : ℝ
  priceAfter : ℝ
  tickAfter : ℤ
  liquidityUsed : ℝ
  crossedTick : Bool
  tickCrossed : Option ℤ

/-- Aggregate result returned by executeSwap. -/
structure SwapResult where
  amountIn : ℝ
  amountOut : ℝ
  feesCollected : ℝ
  finalPrice : ℝ
  priceImpact : ℝ
  steps : List SwapStep

/-- Local variables of executeSwap alive across loop iterations, together with
the simulator state it mutates. -/
structure LoopState where
  amountIn : ℝ
  initialPrice : ℝ
  remaining : ℝ
  totalOut : ℝ
  fee : ℝ
  steps : List SwapStep
  sim : SimState

/-- finalResult: the return value built after the while loop of executeSwap
exits normally (all input consumed, or none was supplied). -/
def finalResult (ls : LoopState) : SwapResult :=
  { amountIn := ls.amountIn
    amountOut := ls.totalOut
    feesCollected := ls.fee
    finalPrice := ls.sim.currentPrice
    priceImpact := (ls.initialPrice - ls.sim.currentPrice) / ls.initialPrice
    steps := ls.steps }

/-- starvedResult: the early partial return of executeSwap when the active
liquidity is not positive; amountIn reports only the consumed part. -/
def starvedResult (ls : LoopState) : SwapResult :=
  { amountIn := ls.amountIn - ls.remaining
    amountOut := ls.totalOut
    feesCollected := ls.fee
    finalPrice := ls.sim.currentPrice
    priceImpact := (ls.initialPrice - ls.sim.currentPrice) / ls.initialPrice
    steps := ls.steps }

/-- exhaustRegion: the duplicated block of executeSwap that consumes all
remaining input against the current active liquidity (used both when no next
tick exists and when the input cannot reach the next tick). -/
def exhaustRegion (zeroForOne : Bool) (ls : LoopState) (activeLiquidity : ℝ) : LoopState :=
  let step := computeSwapStep (ls.remaining * SCALE_FACTOR) ls.sim.currentSqrtPriceX96
      activeLiquidity ls.sim.feeTier zeroForOne
  let outputAmount := step.amountOut / SCALE_FACTOR
  let newPrice := sqrtPriceX96ToPrice step.newSqrtPriceX96
  let newTick := priceToTick newPrice
  let newStep : SwapStep :=
    { amountIn := ls.remaining, amountOut := outputAmount, priceAfter := newPrice,
      tickAfter := newTick, liquidityUsed := activeLiquidity, crossedTick := false,
      tickCrossed := none }
  { ls with
    totalOut := ls.totalOut + outputAmount
    fee := ls.fee + ls.remaining * ls.sim.feeTier
    sim := { ls.sim with
      currentSqrtPriceX96 := step.newSqrtPriceX96
      currentPrice := newPrice
      currentTick := newTick }
    steps := ls.steps ++ [newStep]
    remaining := 0 }

/-- amountToNextTickVal: executeSwap's fee-adjusted, scaled estimate of the
input needed to reach the next tick's price boundary. -/
def amountToNextTickVal (zeroForOne : Bool) (ls : LoopState) (activeLiquidity : ℝ)
    (nextTick : Tick) : ℝ :=
  let nextTickSqrtPriceX96 := priceToSqrtPriceX96 (tickToPrice nextTick.index)
  (if zeroForOne then
    activeLiquidity * |1 / ls.sim.currentSqrtPriceX96 - 1 / nextTickSqrtPriceX96|
  else
    activeLiquidity * |nextTickSqrtPriceX96 - ls.sim.currentSqrtPriceX96|)
    / (1 - ls.sim.feeTier) / SCALE_FACTOR

/-- crossTick: the branch of executeSwap that consumes exactly the boundary
amount, records a crossing step and moves the state onto the next tick. -/
def crossTick (zeroForOne : Bool) (ls : LoopState) (activeLiquidity : ℝ) (nextTick : Tick)
    (nextTickPrice nextTickSqrtPriceX96 amountToNextTick : ℝ) : LoopState :=
  let step := computeSwapStep (amountToNextTick * SCALE_FACTOR) ls.sim.currentSqrtPriceX96
      activeLiquidity ls.sim.feeTier zeroForOne
  let outputAmount := step.amountOut / SCALE_FACTOR
  let newStep : SwapStep :=
    { amountIn := amountToNextTick, amountOut := outputAmount, priceAfter := nextTickPrice,
      tickAfter := nextTick.index, liquidityUsed := activeLiquidity, crossedTick := true,
      tickCrossed := some nextTick.index }
  { ls with
    totalOut := ls.totalOut + outputAmount
    fee := ls.fee + amountToNextTick * ls.sim.feeTier
    remaining := ls.remaining - amountToNextTick
    steps := ls.steps ++ [newStep]
    sim := { ls.sim with
      currentTick := nextTick.index
      currentPrice := nextTickPrice
      currentSqrtPriceX96 := nextTickSqrtPriceX96 } }

/-- swapIter: one iteration of the while loop body of executeSwap (the loop is
entered with remaining > 0).  Sum.inr is a return out of the loop, Sum.inl
continues with the updated locals. -/
def swapIter (zeroForOne : Bool) (ls : LoopState) : LoopState ⊕ (SwapResult × SimState) :=
  let activeLiquidity := getActiveLiquidity ls.sim.liquidityTicks ls.sim.currentTick
  if activeLiquidity ≤ 0 then
    Sum.inr (starvedResult ls, ls.sim)
  else
    match findNextTick ls.sim.liquidityTicks ls.sim.currentTick zeroForOne with
    | none =>
      let ls2 := exhaustRegion zeroForOne ls activeLiquidity
      Sum.inr (finalResult ls2, ls2.sim)
    | some nextTick =>
      let nextTickPrice := tickToPrice nextTick.index
      let nextTickSqrtPriceX96 := priceToSqrtPriceX96 nextTickPrice
      let amountToNextTick := amountToNextTickVal zeroForOne ls activeLiquidity nextTick
      if ls.remaining ≤ amountToNextTick then
        Sum.inl (exhaustRegion zeroForOne ls activeLiquidity)
      else
        Sum.inl (crossTick zeroForOne ls activeLiquidity nextTick nextTickPrice
          nextTickSqrtPriceX96 amountToNextTick)

/-- swapGo: the while loop of executeSwap, indexed by fuel; none means the fuel
ran out (shown below never to happen for the bound used by executeSwap). -/
def swapGo (zeroForOne : Bool) (fuel : ℕ) (ls : LoopState) : Option (SwapResult × SimState) :=
  if ls.remaining ≤ 0 then some (finalResult ls, ls.sim)
  else
    match fuel with
    | 0 => none
    | fuel2 + 1 =>
      match swapIter zeroForOne ls with
      | Sum.inr r => some r
      | Sum.inl ls2 => swapGo zeroForOne fuel2 ls2

/-- executeSwap from UniswapV3SwapSimulator: initialize the loop locals from
the simulator state and run the loop; the fuel bound is one more than the
number of stored ticks. -/
def executeSwap (st : SimState) (amountIn : ℝ) (zeroForOne : Bool) :
    Option (SwapResult × SimState) :=
  swapGo zeroForOne (st.liquidityTicks.length + 1)
    { amountIn := amountIn, initialPrice := st.currentPrice, remaining := amountIn,
      totalOut := 0, fee := 0, steps := [], sim := st }

/-- ticksBeyond: number of stored ticks strictly beyond currentTick in the swap
direction; the decreasing measure of the swap loop. -/
def ticksBeyond (ticks : List Tick) (currentTick : ℤ) (zeroForOne : Bool) : ℕ :=
  if zeroForOne then ticks.countP (fun t => t.index < currentTick)
  else ticks.countP (fun t => currentTick < t.index)

/-- SortedTicks: the tick list is sorted by index (the invariant addTick keeps). -/
def SortedTicks (l : List Tick) : Prop :=
  l.Pairwise (fun a b => a.index ≤ b.index)

/-- sumNetLE: sum of liquidityNet over the stored ticks with index ≤ cur. -/
def sumNetLE (l : List Tick) (cur : ℤ) : ℝ :=
  ((l.filter (fun t => t.index ≤ cur)).map Tick.liquidityNet).sum

/-- positionContrib: what one position's two tick entries contribute to the
sum of liquidityNet over indices ≤ cur. -/
def positionContrib (p : Position) (cur : ℤ) : ℝ :=
  (if p.lowerTick ≤ cur then p.liquidity else 0) +
    (if p.upperTick ≤ cur then -p.liquidity else 0)

/-- demoPositions: a concrete two-position list used as a witness input. -/
def demoPositions : List Position :=
  [{ lowerTick := 0, upperTick := 10, liquidity := 5 },
   { lowerTick := -5, upperTick := 3, liquidity := 2 }]

/-- nt0: a concrete tick entry at index 0 carrying one unit of liquidity. -/
def nt0 : Tick :=
  { index := 0, liquidityNet := 1, liquidityGross := 1 }

/-- exhSim: a concrete pool state holding the single tick nt0, with the current
tick above it. -/
def exhSim : SimState :=
  { feeTier := 0, currentPrice := 1, currentSqrtPriceX96 := 1, currentTick := 5,
    liquidityTicks := [nt0] }

/-- exhLS: loop locals on exhSim whose tiny remaining input cannot reach the
next tick boundary. -/
def exhLS : LoopState :=
  { amountIn := 1 / 10 ^ 20, initialPrice := 1, remaining := 1 / 10 ^ 20, totalOut := 0,
    fee := 0, steps := [], sim := exhSim }

/-- starvedSim: a concrete pool state with no liquidity positions. -/
def starvedSim : SimState :=
  { feeTier := 3 / 1000, currentPrice := 2000, currentSqrtPriceX96 := priceToSqrtPriceX96 2000,
    currentTick := 0, liquidityTicks := [] }

/-- starvedLS: the loop locals of executeSwap on starvedSim with amountIn = 5. -/
def starvedLS : LoopState :=
  { amountIn := 5, initialPrice := 2000, remaining := 5, totalOut := 0, fee := 0,
    steps := [], sim := starvedSim }

/-- Normalized lower bound: the source's swap-if-inverted produces the minimum. -/
theorem boundMin (a b : ℝ) : (if b < a then b else a) = min a b := by
  rcases le_or_lt a b with h | h
  · rw [if_neg (not_lt.mpr h), min_eq_left h]
  · rw [if_pos h, min_eq_right h.le]

/-- Normalized upper bound: the source's swap-if-inverted produces the maximum. -/
theorem boundMax (a b : ℝ) : (if b < a then a else b) = max a b := by
  rcases le_or_lt a b with h | h
  · rw [if_neg (not_lt.mpr h), max_eq_right h]
  · rw [if_pos h, max_eq_left h.le]

/-- In-range branch of getLiquidityForAmounts. -/
theorem getLiquidityForAmounts_inRange (s lo hi a0 a1 : ℝ) (hab : lo ≤ hi) (h1 : lo < s)
    (h2 : s < hi) :
    getLiquidityForAmounts s lo hi a0 a1
      = min (calculateLiquidity0 s hi a0) (calculateLiquidity1 lo s a1) := by
  simp only [getLiquidityForAmounts, if_neg (not_lt.mpr hab)]
  rw [if_neg (not_le.mpr h1), if_pos h2]

/-- In-range branch of getAmountsForLiquidity. -/
theorem getAmountsForLiquidity_inRange (s lo hi L : ℝ) (hab : lo ≤ hi) (h1 : lo < s)
    (h2 : s < hi) :
    getAmountsForLiquidity s lo hi L
      = { amount0 := calculateAmount0 s hi L, amount1 := calculateAmount1 lo s L } := by
  simp only [getAmountsForLiquidity, if_neg (not_lt.mpr hab)]
  rw [if_neg (not_le.mpr h1), if_pos h2]

/-- C2: getLiquidityForAmounts never errors on inverted bounds (it normalizes them
to min/max) and follows the three-regime split: below the range it returns
amount0*lo*hi/(hi-lo); inside it returns the minimum of the two one-sided
liquidity values computed over the partial ranges; above it returns
amount1/(hi-lo). -/
theorem getLiquidityForAmounts_regimes (s a b a0 a1 : ℝ) (h0 : 0 ≤ a0) (h1 : 0 ≤ a1) :
    (s ≤ min a b →
      getLiquidityForAmounts s a b a0 a1 = a0 * min a b * max a b / (max a b - min a b)) ∧
    (min a b < s → s < max a b →
      getLiquidityForAmounts s a b a0 a1
        = min (calculateLiquidity0 s (max a b) a0) (calculateLiquidity1 (min a b) s a1)) ∧
    (max a b ≤ s →
      getLiquidityForAmounts s a b a0 a1 = a1 / (max a b - min a b)) := by
  simp only [getLiquidityForAmounts, boundMin, boundMax]
  refine ⟨fun h => ?_, fun hl hr => ?_, fun h => ?_⟩
  · rw [if_pos h]; rfl
  · rw [if_neg (not_le.mpr hl), if_pos hr]
  · by_cases hsm : s ≤ min a b
    · have heq : max a b = min a b := le_antisymm (h.trans hsm) min_le_max
      rw [if_pos hsm, calculateLiquidity0, heq, sub_self, div_zero, div_zero]
    · rw [if_neg hsm, if_neg (not_lt.mpr h)]; rfl

/-- Witness for C2 with inverted bounds (4, 1) and current sqrt price 2 inside
the normalized range. -/
theorem getLiquidityForAmounts_regimes_witness :
    ((2:ℝ) ≤ min 4 1 →
      getLiquidityForAmounts 2 4 1 3 5 = 3 * min 4 1 * max 4 1 / (max 4 1 - min 4 1)) ∧
    (min (4:ℝ) 1 < 2 → (2:ℝ) < max 4 1 →
      getLiquidityForAmounts 2 4 1 3 5
        = min (calculateLiquidity0 2 (max 4 1) 3) (calculateLiquidity1 (min 4 1) 2 5)) ∧
    (max (4:ℝ) 1 ≤ 2 →
      getLiquidityForAmounts 2 4 1 3 5 = 5 / (max 4 1 - min 4 1)) :=
  getLiquidityForAmounts_regimes 2 4 1 3 5 (by norm_num) (by norm_num)

/-- C3: for a price strictly inside the range, sizing liquidity from amounts and
converting back to amounts never overcommits either token. -/
theorem roundTrip_no_overcommit (s lo hi a0 a1 : ℝ) (hlo : 0 < lo) (h1 : lo < s)
    (h2 : s < hi) (ha0 : 0 ≤ a0) (ha1 : 0 ≤ a1) :
    (getAmountsForLiquidity s lo hi (getLiquidityForAmounts s lo hi a0 a1)).amount0 ≤ a0 ∧
    (getAmountsForLiquidity s lo hi (getLiquidityForAmounts s lo hi a0 a1)).amount1 ≤ a1 := by
  have hab : lo ≤ hi := (h1.trans h2).le
  have hs : 0 < s := hlo.trans h1
  have hhi : 0 < hi := hs.trans h2
  have hhs : 0 < hi - s := sub_pos.mpr h2
  have hsl : 0 < s - lo := sub_pos.mpr h1
  have hsh : 0 < s * hi := mul_pos hs hhi
  rw [getLiquidityForAmounts_inRange s lo hi a0 a1 hab h1 h2,
      getAmountsForLiquidity_inRange s lo hi _ hab h1 h2]
  set L0 := calculateLiquidity0 s hi a0 with hL0
  set L1 := calculateLiquidity1 lo s a1 with hL1
  constructor
  · show calculateAmount0 s hi (min L0 L1) ≤ a0
    unfold calculateAmount0
    have hle : min L0 L1 * (hi - s) ≤ L0 * (hi - s) :=
      mul_le_mul_of_nonneg_right (min_le_left _ _) hhs.le
    have key : L0 * (hi - s) / (s * hi) = a0 := by
      rw [hL0]; unfold calculateLiquidity0
      field_simp
      ring
    calc min L0 L1 * (hi - s) / (s * hi) ≤ L0 * (hi - s) / (s * hi) :=
          (div_le_div_right hsh).mpr hle
      _ = a0 := key
  · show calculateAmount1 lo s (min L0 L1) ≤ a1
    unfold calculateAmount1
    have key : L1 * (s - lo) = a1 := by
      rw [hL1]; unfold calculateLiquidity1
      field_simp
    calc min L0 L1 * (s - lo) ≤ L1 * (s - lo) :=
          mul_le_mul_of_nonneg_right (min_le_right _ _) hsl.le
      _ = a1 := key

/-- Witness for C3 at sqrt prices lo = 1 < s = 2 < hi = 4 and amounts (1, 1). -/
theorem roundTrip_no_overcommit_witness :
    (getAmountsForLiquidity 2 1 4 (getLiquidityForAmounts 2 1 4 1 1)).amount0 ≤ (1:ℝ) ∧
    (getAmountsForLiquidity 2 1 4 (getLiquidityForAmounts 2 1 4 1 1)).amount1 ≤ (1:ℝ) :=
  roundTrip_no_overcommit 2 1 4 1 1 (by norm_num) (by norm_num) (by norm_num)
    (by norm_num) (by norm_num)

/-- C1 counterexample: at amountIn = 1e-11 (positive, with positive liquidity
and sqrt price) computeSwapStep takes the small-amount spot-price branch and
the returned sqrt price is not sqrtPrice - amountIn*(1-fee)*sqrtPrice/liquidity. -/
theorem computeSwapStep_tiny_amount_cex :
    0 < (1 / 10 ^ 11 : ℝ) ∧ 0 < (1 : ℝ) ∧ 0 < (2 ^ 96 : ℝ) ∧
    (computeSwapStep (1 / 10 ^ 11) (2 ^ 96) 1 (3 / 1000) true).newSqrtPriceX96
      ≠ 2 ^ 96 - 1 / 10 ^ 11 * (1 - 3 / 1000) * 2 ^ 96 / 1 := by
  refine ⟨by norm_num, by norm_num, by positivity, ?_⟩
  simp only [computeSwapStep, if_pos (show (1 / 10 ^ 11 : ℝ) < 1 / 10 ^ 10 by norm_num),
    if_true]
  norm_num

/-- C1 amended: for amountIn at or above the 1e-10 threshold (the non-degenerate
branch), computeSwapStep deducts the fee first and returns exactly the claimed
price and output formulas in both directions. -/
theorem computeSwapStep_main_branch (amountIn sqrtPriceX96 liquidity feeTier : ℝ)
    (hmin : 1 / 10 ^ 10 ≤ amountIn) (hpos : 0 < amountIn) (hliq : 0 < liquidity)
    (hs : 0 < sqrtPriceX96) :
    (computeSwapStep amountIn sqrtPriceX96 liquidity feeTier true).newSqrtPriceX96
        = sqrtPriceX96 - amountIn * (1 - feeTier) * sqrtPriceX96 / liquidity ∧
    (computeSwapStep amountIn sqrtPriceX96 liquidity feeTier true).amountOut
        = liquidity * (sqrtPriceX96 -
            (computeSwapStep amountIn sqrtPriceX96 liquidity feeTier true).newSqrtPriceX96) ∧
    (computeSwapStep amountIn sqrtPriceX96 liquidity feeTier false).newSqrtPriceX96
        = sqrtPriceX96 + amountIn * (1 - feeTier) / liquidity ∧
    (computeSwapStep amountIn sqrtPriceX96 liquidity feeTier false).amountOut
        = liquidity *
            (1 / (computeSwapStep amountIn sqrtPriceX96 liquidity feeTier false).newSqrtPriceX96
              - 1 / sqrtPriceX96) * sqrtPriceX96
            * (computeSwapStep amountIn sqrtPriceX96 liquidity feeTier false).newSqrtPriceX96 := by
  have hlt : ¬ amountIn < 1 / 10 ^ 10 := not_lt.mpr hmin
  simp only [computeSwapStep, if_neg hlt, if_true, Bool.false_eq_true, if_false]
  refine ⟨trivial, trivial, trivial, by ring⟩

/-- Witness for C1's amended theorem at amountIn = 1, sqrt price 2, liquidity 3,
fee 1/2. -/
theorem computeSwapStep_main_branch_witness :
    (computeSwapStep 1 2 3 (1/2) true).newSqrtPriceX96 = 2 - 1 * (1 - 1/2) * 2 / 3 ∧
    (computeSwapStep 1 2 3 (1/2) true).amountOut
        = 3 * (2 - (computeSwapStep 1 2 3 (1/2) true).newSqrtPriceX96) ∧
    (computeSwapStep 1 2 3 (1/2) false).newSqrtPriceX96 = 2 + 1 * (1 - 1/2) / 3 ∧
    (computeSwapStep 1 2 3 (1/2) false).amountOut
        = 3 * (1 / (computeSwapStep 1 2 3 (1/2) false).newSqrtPriceX96 - 1 / 2) * 2
            * (computeSwapStep 1 2 3 (1/2) false).newSqrtPriceX96 :=
  computeSwapStep_main_branch 1 2 3 (1/2) (by norm_num) (by norm_num) (by norm_num)
    (by norm_num)

/-- C10: computeSwapStep applies no clamping: there are inputs with positive
amountIn, sqrt price and liquidity, and net input exceeding the liquidity, for
which the returned new sqrt price is negative. -/
theorem computeSwapStep_negative_price :
    ∃ amountIn sqrtPriceX96 liquidity feeTier : ℝ,
      0 < amountIn ∧ 0 < sqrtPriceX96 ∧ 0 < liquidity ∧
      liquidity < amountIn * (1 - feeTier) ∧
      (computeSwapStep amountIn sqrtPriceX96 liquidity feeTier true).newSqrtPriceX96 < 0 := by
  refine ⟨2, 2 ^ 96, 1, 3 / 1000, by norm_num, by positivity, by norm_num, by norm_num, ?_⟩
  simp only [computeSwapStep, if_neg (show ¬ (2:ℝ) < 1 / 10 ^ 10 by norm_num), if_true]
  norm_num

/-- C6: for every tick in the valid range, converting to a price and back
recovers the tick exactly, and tickToPrice is idempotent through one such
normalization. -/
theorem tick_roundTrip (t : ℤ) (h1 : MIN_TICK ≤ t) (h2 : t ≤ MAX_TICK) :
    priceToTick (tickToPrice t) = t ∧
    tickToPrice (priceToTick (tickToPrice t)) = tickToPrice t := by
  have hlog : Real.log 1.0001 ≠ 0 := ne_of_gt (Real.log_pos (by norm_num))
  have key : priceToTick (tickToPrice t) = t := by
    unfold priceToTick tickToPrice
    rw [Real.log_zpow, mul_div_cancel_right₀ _ hlog, Int.floor_intCast]
  exact ⟨key, by rw [key]⟩

/-- Witness for C6 at tick 1000. -/
theorem tick_roundTrip_witness :
    priceToTick (tickToPrice 1000) = 1000 ∧
    tickToPrice (priceToTick (tickToPrice 1000)) = tickToPrice 1000 :=
  tick_roundTrip 1000 (by norm_num [MIN_TICK]) (by norm_num [MAX_TICK])

/-- C9 counterexample: tick 887273 lies outside [MIN_TICK, MAX_TICK], yet
tickToPrice does not fail there: it returns the ordinary positive price
1.0001 ^ 887273 (the source has no range check and no error path). -/
theorem tickToPrice_no_range_check_cex :
    MAX_TICK < 887273 ∧ tickToPrice 887273 = (1.0001 : ℝ) ^ (887273 : ℤ) ∧
    0 < tickToPrice 887273 := by
  refine ⟨by norm_num [MAX_TICK], rfl, ?_⟩
  unfold tickToPrice
  positivity

/-- C9 amended: neither converter validates its input: tickToPrice returns the
positive price 1.0001^tick for every integer tick, in or out of the range, and
priceToTick computes the floor formula for every price with no error raised
(for price ≤ 0 the JS source silently produces NaN through Math.log rather
than an InvalidPrice error). -/
theorem converters_never_fail :
    (∀ t : ℤ, 0 < tickToPrice t) ∧
    (∀ price : ℝ, priceToTick price = ⌊Real.log price / Real.log 1.0001⌋) := by
  constructor
  · intro t
    unfold tickToPrice
    positivity
  · intro price
    rfl

/-- Inserting into the tick list is a permutation of consing. -/
theorem insertTick_perm (t : Tick) : ∀ l : List Tick, List.Perm (insertTick t l) (t :: l)
  | [] => by simp [insertTick]
  | b :: l => by
    unfold insertTick
    by_cases h : t.index < b.index
    · rw [if_pos h]
    · rw [if_neg h]
      exact ((insertTick_perm t l).cons b).trans (List.Perm.swap t b l)

/-- Unfolding lemma for SortedTicks on a cons cell. -/
theorem sortedTicks_cons {b : Tick} {l : List Tick} :
    SortedTicks (b :: l) ↔ (∀ x ∈ l, b.index ≤ x.index) ∧ SortedTicks l :=
  List.pairwise_cons

/-- insertTick keeps the tick list sorted by index. -/
theorem insertTick_sorted (t : Tick) (l : List Tick) (hl : SortedTicks l) :
    SortedTicks (insertTick t l) := by
  induction l with
  | nil => simp [insertTick, SortedTicks]
  | cons b l ih =>
    rw [sortedTicks_cons] at hl
    obtain ⟨hb, hl⟩ := hl
    unfold insertTick
    by_cases h : t.index < b.index
    · rw [if_pos h, sortedTicks_cons]
      refine ⟨?_, sortedTicks_cons.mpr ⟨hb, hl⟩⟩
      intro x hx
      rcases List.mem_cons.mp hx with rfl | hx
      · exact h.le
      · exact h.le.trans (hb x hx)
    · rw [if_neg h, sortedTicks_cons]
      refine ⟨?_, ih hl⟩
      intro x hx
      have hx2 : x ∈ t :: l := (insertTick_perm t l).mem_iff.mp hx
      rcases List.mem_cons.mp hx2 with rfl | hx3
      · exact not_lt.mp h
      · exact hb x hx3

/-- On a sorted tick list, the early-exit scan of getActiveLiquidity computes
the full sum of liquidityNet over indices ≤ cur. -/
theorem getActiveLiquidity_eq_sumNetLE (cur : ℤ) (l : List Tick) (hl : SortedTicks l) :
    getActiveLiquidity l cur = sumNetLE l cur := by
  induction l with
  | nil => simp [getActiveLiquidity, sumNetLE]
  | cons t ts ih =>
    rw [sortedTicks_cons] at hl
    obtain ⟨ht, hts⟩ := hl
    by_cases h : t.index ≤ cur
    · simp [getActiveLiquidity, sumNetLE, List.filter_cons, h, ih hts]
    · have hnil : ts.filter (fun x => decide (x.index ≤ cur)) = [] := by
        rw [List.filter_eq_nil_iff]
        intro x hx
        simp only [decide_eq_true_eq]
        exact fun hc => h ((ht x hx).trans hc)
      simp [getActiveLiquidity, sumNetLE, List.filter_cons, h, hnil]

/-- sumNetLE is invariant under permutation of the tick list. -/
theorem sumNetLE_perm {l l2 : List Tick} (h : List.Perm l l2) (cur : ℤ) :
    sumNetLE l cur = sumNetLE l2 cur := by
  unfold sumNetLE
  exact List.Perm.sum_eq ((h.filter _).map _)

/-- sumNetLE over a cons cell. -/
theorem sumNetLE_cons (t : Tick) (l : List Tick) (cur : ℤ) :
    sumNetLE (t :: l) cur = (if t.index ≤ cur then t.liquidityNet else 0) + sumNetLE l cur := by
  by_cases h : t.index ≤ cur <;> simp [sumNetLE, List.filter_cons, h]

/-- sumNetLE after inserting one tick entry. -/
theorem sumNetLE_insertTick (t : Tick) (l : List Tick) (cur : ℤ) :
    sumNetLE (insertTick t l) cur
      = (if t.index ≤ cur then t.liquidityNet else 0) + sumNetLE l cur := by
  rw [sumNetLE_perm (insertTick_perm t l) cur, sumNetLE_cons]

/-- Folding positions into the tick index keeps it sorted. -/
theorem foldl_addPositionTicks_sorted (ps : List Position) (acc : List Tick)
    (hacc : SortedTicks acc) : SortedTicks (ps.foldl addPositionTicks acc) := by
  induction ps generalizing acc with
  | nil => exact hacc
  | cons p ps ih =>
    rw [List.foldl_cons]
    exact ih _ (insertTick_sorted _ _ (insertTick_sorted _ _ hacc))

/-- sumNetLE of the folded tick index: accumulator part plus one contribution
per position. -/
theorem sumNetLE_foldl (ps : List Position) (acc : List Tick) (cur : ℤ) :
    sumNetLE (ps.foldl addPositionTicks acc) cur
      = sumNetLE acc cur + (ps.map (fun p => positionContrib p cur)).sum := by
  induction ps generalizing acc with
  | nil => simp
  | cons p ps ih =>
    rw [List.foldl_cons, ih, List.map_cons, List.sum_cons]
    have hstep : sumNetLE (addPositionTicks acc p) cur
        = sumNetLE acc cur + positionContrib p cur := by
      show sumNetLE (insertTick _ (insertTick _ acc)) cur = _
      rw [sumNetLE_insertTick, sumNetLE_insertTick, positionContrib]
      dsimp only
      ring
    rw [hstep]
    ring

/-- For a well-formed position, its contribution at cur is its liquidity when
the half-open tick range [lowerTick, upperTick) contains cur, and 0 otherwise. -/
theorem positionContrib_eq (p : Position) (cur : ℤ) (hp : p.lowerTick ≤ p.upperTick) :
    positionContrib p cur
      = if p.lowerTick ≤ cur ∧ cur < p.upperTick then p.liquidity else 0 := by
  unfold positionContrib
  by_cases h1 : p.lowerTick ≤ cur
  · by_cases h2 : p.upperTick ≤ cur
    · rw [if_pos h1, if_pos h2, if_neg (fun hc => (not_lt.mpr h2) hc.2)]
      ring
    · rw [if_pos h1, if_neg h2, if_pos ⟨h1, not_le.mp h2⟩, add_zero]
  · have h2 : ¬ p.upperTick ≤ cur := fun hc => h1 (hp.trans hc)
    rw [if_neg h1, if_neg h2, if_neg (fun hc => h1 hc.1), add_zero]

/-- Sum of contributions equals the summed liquidity of containing positions. -/
theorem contribSum_eq_filter (ps : List Position) (cur : ℤ)
    (hps : ∀ p ∈ ps, p.lowerTick ≤ p.upperTick) :
    (ps.map (fun p => positionContrib p cur)).sum
      = ((ps.filter (fun p => decide (p.lowerTick ≤ cur ∧ cur < p.upperTick))).map
          Position.liquidity).sum := by
  induction ps with
  | nil => simp
  | cons p ps ih =>
    have hp := hps p (List.mem_cons_self p ps)
    have hrest : ∀ q ∈ ps, q.lowerTick ≤ q.upperTick :=
      fun q hq => hps q (List.mem_cons_of_mem p hq)
    rw [List.map_cons, List.sum_cons, positionContrib_eq p cur hp, ih hrest, List.filter_cons]
    by_cases hc : p.lowerTick ≤ cur ∧ cur < p.upperTick
    · simp [hc]
    · simp [hc]

/-- C4: after building the tick index from any list of well-formed positions
(each recorded by addTick(lowerTick, +L, L) and addTick(upperTick, -L, L)), the
active liquidity getActiveLiquidity reports at any tick equals the summed
liquidity of exactly the supplied positions whose half-open tick range
contains that tick. -/
theorem activeLiquidity_eq_sum_of_positions (ps : List Position) (cur : ℤ)
    (hps : ∀ p ∈ ps, p.lowerTick ≤ p.upperTick) :
    getActiveLiquidity (buildFromPositions ps) cur
      = ((ps.filter (fun p => decide (p.lowerTick ≤ cur ∧ cur < p.upperTick))).map
          Position.liquidity).sum := by
  unfold buildFromPositions
  rw [getActiveLiquidity_eq_sumNetLE cur _
        (foldl_addPositionTicks_sorted ps [] List.Pairwise.nil),
      sumNetLE_foldl]
  have h0 : sumNetLE [] cur = 0 := by simp [sumNetLE]
  rw [h0, zero_add, contribSum_eq_filter ps cur hps]

/-- Witness for C4 on the two demo positions at tick 2 (contained in both). -/
theorem activeLiquidity_eq_sum_of_positions_witness :
    getActiveLiquidity (buildFromPositions demoPositions) 2
      = ((demoPositions.filter
          (fun p => decide (p.lowerTick ≤ 2 ∧ 2 < p.upperTick))).map
          Position.liquidity).sum :=
  activeLiquidity_eq_sum_of_positions demoPositions 2 (by
    intro p hp
    simp only [demoPositions, List.mem_cons, List.not_mem_nil, or_false] at hp
    rcases hp with rfl | rfl <;> norm_num)

/-- One-step unfolding of the swap loop. -/
theorem swapGo_unfold (z : Bool) (fuel : ℕ) (ls : LoopState) :
    swapGo z fuel ls =
      if ls.remaining ≤ 0 then some (finalResult ls, ls.sim)
      else
        match fuel with
        | 0 => none
        | fuel2 + 1 =>
          match swapIter z ls with
          | Sum.inr r => some r
          | Sum.inl ls2 => swapGo z fuel2 ls2 := by
  rw [swapGo.eq_def]

/-- An iteration entered with non-positive active liquidity returns the partial
starved result at once, leaving the simulator state untouched. -/
theorem swapIter_starved (z : Bool) (ls : LoopState)
    (h : getActiveLiquidity ls.sim.liquidityTicks ls.sim.currentTick ≤ 0) :
    swapIter z ls = Sum.inr (starvedResult ls, ls.sim) := by
  simp only [swapIter]
  rw [if_pos h]

/-- C8: a swap of amountIn = 0 returns amountOut = 0 (indeed the all-zero
result) and leaves the pool state unchanged, for every pool state and either
direction. -/
theorem executeSwap_zero_amount (st : SimState) (dir : Bool) :
    executeSwap st 0 dir =
      some ({ amountIn := 0, amountOut := 0, feesCollected := 0,
              finalPrice := st.currentPrice, priceImpact := 0, steps := [] }, st) := by
  unfold executeSwap
  rw [swapGo_unfold]
  simp [finalResult]

/-- C7: a swap requested with positive input while the active liquidity at the
current tick is not positive raises no exception: executeSwap returns the
partial starved result with consumed amountIn 0, amountOut 0, the price
unchanged and an empty step trace, and the pool state is untouched. -/
theorem executeSwap_starved (st : SimState) (amountIn : ℝ) (dir : Bool)
    (hpos : 0 < amountIn)
    (hliq : getActiveLiquidity st.liquidityTicks st.currentTick ≤ 0) :
    executeSwap st amountIn dir =
      some ({ amountIn := 0, amountOut := 0, feesCollected := 0,
              finalPrice := st.currentPrice, priceImpact := 0, steps := [] }, st) := by
  unfold executeSwap
  rw [swapGo_unfold]
  dsimp only
  rw [if_neg (not_le.mpr hpos), swapIter_starved dir _ hliq]
  simp [starvedResult]

/-- Witness for C7 on the empty-tick pool starvedSim with amountIn = 1. -/
theorem executeSwap_starved_witness :
    executeSwap starvedSim 1 true =
      some ({ amountIn := 0, amountOut := 0, feesCollected := 0,
              finalPrice := starvedSim.currentPrice, priceImpact := 0, steps := [] },
            starvedSim) :=
  executeSwap_starved starvedSim 1 true (by norm_num)
    (by simp [starvedSim, getActiveLiquidity])

/-- A strict countP comparison: a weaker predicate counts strictly fewer
elements when some list element separates the two. -/
theorem countP_lt_of_mem {α : Type} (l : List α) (p q : α → Bool)
    (himp : ∀ x, p x = true → q x = true) (a : α) (ha : a ∈ l) (hqa : q a = true)
    (hpa : p a = false) : l.countP p < l.countP q := by
  induction l with
  | nil => cases ha
  | cons b l ih =>
    rw [List.countP_cons, List.countP_cons]
    have hle : l.countP p ≤ l.countP q :=
      List.countP_mono_left (fun x _ hx => himp x hx)
    rcases List.mem_cons.mp ha with rfl | hb
    · simp only [hpa, hqa, Bool.false_eq_true, if_true, if_false]
      omega
    · have hlt := ih hb
      have hpq : (if p b = true then 1 else 0) ≤ (if q b = true then 1 else 0) := by
        by_cases h : p b = true
        · simp [h, himp b h]
        · simp [h]
      omega

/-- findNextTick in the zeroForOne direction returns a stored tick strictly
below the current tick. -/
theorem findNextTick_true_spec (ticks : List Tick) (cur : ℤ) (nt : Tick)
    (h : findNextTick ticks cur true = some nt) : nt ∈ ticks ∧ nt.index < cur := by
  unfold findNextTick at h
  rw [if_pos rfl] at h
  refine ⟨List.mem_reverse.mp (List.mem_of_find?_eq_some h), ?_⟩
  have := List.find?_some h
  simpa using this

/-- findNextTick in the one-for-zero direction returns a stored tick strictly
above the current tick. -/
theorem findNextTick_false_spec (ticks : List Tick) (cur : ℤ) (nt : Tick)
    (h : findNextTick ticks cur false = some nt) : nt ∈ ticks ∧ cur < nt.index := by
  unfold findNextTick at h
  rw [if_neg (by simp)] at h
  refine ⟨List.mem_of_find?_eq_some h, ?_⟩
  have := List.find?_some h
  simpa using this

/-- Crossing down to a strictly lower stored tick shrinks the loop measure. -/
theorem ticksBeyond_lt_true (ticks : List Tick) (cur : ℤ) (nt : Tick)
    (hmem : nt ∈ ticks) (hlt : nt.index < cur) :
    ticksBeyond ticks nt.index true < ticksBeyond ticks cur true := by
  unfold ticksBeyond
  rw [if_pos rfl, if_pos rfl]
  refine countP_lt_of_mem ticks _ _ ?_ nt hmem (by simpa using hlt) (by simp)
  intro x hx
  simp only [decide_eq_true_eq] at hx ⊢
  exact hx.trans hlt

/-- Crossing up to a strictly higher stored tick shrinks the loop measure. -/
theorem ticksBeyond_lt_false (ticks : List Tick) (cur : ℤ) (nt : Tick)
    (hmem : nt ∈ ticks) (hlt : cur < nt.index) :
    ticksBeyond ticks nt.index false < ticksBeyond ticks cur false := by
  unfold ticksBeyond
  rw [if_neg (by simp), if_neg (by simp)]
  refine countP_lt_of_mem ticks _ _ ?_ nt hmem (by simpa using hlt) (by simp)
  intro x hx
  simp only [decide_eq_true_eq] at hx ⊢
  exact hlt.trans hx

/-- An iteration with liquidity but no next tick consumes everything and
returns out of the loop. -/
theorem swapIter_no_next (z : Bool) (ls : LoopState)
    (hL : ¬ getActiveLiquidity ls.sim.liquidityTicks ls.sim.currentTick ≤ 0)
    (hfind : findNextTick ls.sim.liquidityTicks ls.sim.currentTick z = none) :
    swapIter z ls =
      Sum.inr
        (finalResult (exhaustRegion z ls
          (getActiveLiquidity ls.sim.liquidityTicks ls.sim.currentTick)),
         (exhaustRegion z ls
          (getActiveLiquidity ls.sim.liquidityTicks ls.sim.currentTick)).sim) := by
  simp only [swapIter]
  rw [if_neg hL, hfind]

/-- An iteration whose remaining input cannot reach the next tick consumes it
all within the current region. -/
theorem swapIter_exhaust (z : Bool) (ls : LoopState) (nt : Tick)
    (hL : ¬ getActiveLiquidity ls.sim.liquidityTicks ls.sim.currentTick ≤ 0)
    (hfind : findNextTick ls.sim.liquidityTicks ls.sim.currentTick z = some nt)
    (hcmp : ls.remaining ≤ amountToNextTickVal z ls
      (getActiveLiquidity ls.sim.liquidityTicks ls.sim.currentTick) nt) :
    swapIter z ls =
      Sum.inl (exhaustRegion z ls
        (getActiveLiquidity ls.sim.liquidityTicks ls.sim.currentTick)) := by
  simp only [swapIter]
  rw [if_neg hL, hfind]
  dsimp only
  rw [if_pos hcmp]

/-- An iteration with enough input to reach the next tick crosses it. -/
theorem swapIter_cross (z : Bool) (ls : LoopState) (nt : Tick)
    (hL : ¬ getActiveLiquidity ls.sim.liquidityTicks ls.sim.currentTick ≤ 0)
    (hfind : findNextTick ls.sim.liquidityTicks ls.sim.currentTick z = some nt)
    (hcmp : ¬ ls.remaining ≤ amountToNextTickVal z ls
      (getActiveLiquidity ls.sim.liquidityTicks ls.sim.currentTick) nt) :
    swapIter z ls =
      Sum.inl (crossTick z ls
        (getActiveLiquidity ls.sim.liquidityTicks ls.sim.currentTick) nt
        (tickToPrice nt.index) (priceToSqrtPriceX96 (tickToPrice nt.index))
        (amountToNextTickVal z ls
          (getActiveLiquidity ls.sim.liquidityTicks ls.sim.currentTick) nt)) := by
  simp only [swapIter]
  rw [if_neg hL, hfind]
  dsimp only
  rw [if_neg hcmp]

/-- The boundary estimate is non-negative whenever the active liquidity is
non-negative and the fee rate is at most 1. -/
theorem amountToNextTickVal_nonneg (z : Bool) (ls : LoopState) (L : ℝ) (nt : Tick)
    (hL : 0 ≤ L) (hfee : ls.sim.feeTier ≤ 1) :
    0 ≤ amountToNextTickVal z ls L nt := by
  unfold amountToNextTickVal
  have hfee2 : (0:ℝ) ≤ 1 - ls.sim.feeTier := sub_nonneg.mpr hfee
  have hscale : (0:ℝ) ≤ SCALE_FACTOR := by norm_num [SCALE_FACTOR]
  cases z <;> dsimp only <;>
    exact div_nonneg (div_nonneg (mul_nonneg hL (abs_nonneg _)) hfee2) hscale

/-- The swap loop returns a result whenever the fuel exceeds the number of
ticks strictly beyond the current tick in the swap direction. -/
theorem swapGo_isSome (z : Bool) : ∀ (fuel : ℕ) (ls : LoopState),
    ticksBeyond ls.sim.liquidityTicks ls.sim.currentTick z < fuel →
    (swapGo z fuel ls).isSome := by
  intro fuel
  induction fuel with
  | zero => intro ls h; omega
  | succ n ih =>
    intro ls hm
    rw [swapGo_unfold]
    by_cases hr : ls.remaining ≤ 0
    · rw [if_pos hr]; simp
    · rw [if_neg hr]
      by_cases hL : getActiveLiquidity ls.sim.liquidityTicks ls.sim.currentTick ≤ 0
      · rw [swapIter_starved z ls hL]; simp
      · cases hfind : findNextTick ls.sim.liquidityTicks ls.sim.currentTick z with
        | none => rw [swapIter_no_next z ls hL hfind]; simp
        | some nt =>
          by_cases hcmp : ls.remaining ≤ amountToNextTickVal z ls
              (getActiveLiquidity ls.sim.liquidityTicks ls.sim.currentTick) nt
          · rw [swapIter_exhaust z ls nt hL hfind hcmp]
            dsimp only
            rw [swapGo_unfold, if_pos (le_of_eq (by simp [exhaustRegion]))]
            simp
          · rw [swapIter_cross z ls nt hL hfind hcmp]
            dsimp only
            apply ih
            have hticks : (crossTick z ls
                (getActiveLiquidity ls.sim.liquidityTicks ls.sim.currentTick) nt
                (tickToPrice nt.index) (priceToSqrtPriceX96 (tickToPrice nt.index))
                (amountToNextTickVal z ls
                  (getActiveLiquidity ls.sim.liquidityTicks ls.sim.currentTick) nt)).sim.liquidityTicks
                = ls.sim.liquidityTicks := by simp [crossTick]
            have htick : (crossTick z ls
                (getActiveLiquidity ls.sim.liquidityTicks ls.sim.currentTick) nt
                (tickToPrice nt.index) (priceToSqrtPriceX96 (tickToPrice nt.index))
                (amountToNextTickVal z ls
                  (getActiveLiquidity ls.sim.liquidityTicks ls.sim.currentTick) nt)).sim.currentTick
                = nt.index := by simp [crossTick]
            rw [hticks, htick]
            cases z with
            | true =>
              obtain ⟨hmem, hlt⟩ := findNextTick_true_spec _ _ _ hfind
              have := ticksBeyond_lt_true ls.sim.liquidityTicks ls.sim.currentTick nt hmem hlt
              omega
            | false =>
              obtain ⟨hmem, hlt⟩ := findNextTick_false_spec _ _ _ hfind
              have := ticksBeyond_lt_false ls.sim.liquidityTicks ls.sim.currentTick nt hmem hlt
              omega

/-- C5 counterexample: a swap request of 5 against a pool with no active
liquidity enters the loop (remaining input is positive) yet the iteration
appends no swap-step record and consumes nothing: executeSwap returns the
starved result with an empty trace and zero consumed input, refuting that
every iteration appends one record and strictly decreases the remaining
input. -/
theorem swap_loop_iteration_cex :
    0 < starvedLS.remaining ∧
    swapIter true starvedLS = Sum.inr (starvedResult starvedLS, starvedLS.sim) ∧
    (starvedResult starvedLS).steps.length = starvedLS.steps.length ∧
    (starvedResult starvedLS).amountIn = 0 ∧
    executeSwap starvedSim 5 true = some (starvedResult starvedLS, starvedSim) := by
  have hliq : getActiveLiquidity starvedLS.sim.liquidityTicks starvedLS.sim.currentTick ≤ 0 := by
    simp [starvedLS, starvedSim, getActiveLiquidity]
  refine ⟨by norm_num [starvedLS], swapIter_starved true starvedLS hliq, rfl,
    by simp [starvedResult, starvedLS], ?_⟩
  unfold executeSwap
  rw [swapGo_unfold]
  dsimp only
  rw [if_neg (by norm_num), swapIter_starved true _ (by simpa [starvedLS] using hliq)]
  simp [starvedLS, starvedSim]

/-- C5 amended: an iteration of the swap loop entered with positive remaining
input and positive active liquidity appends exactly one swap-step record and
(for a fee rate at most 1) never increases the remaining input, whether it
continues the loop or returns out of it; an iteration entered with
non-positive active liquidity returns the starved result at once, appending
nothing; and the loop always terminates: executeSwap returns a result for
every pool state, input amount and direction. -/
theorem swap_loop_behavior :
    (∀ (dir : Bool) (ls ls2 : LoopState), 0 < ls.remaining → ls.sim.feeTier ≤ 1 →
      swapIter dir ls = Sum.inl ls2 →
      ls2.steps.length = ls.steps.length + 1 ∧ ls2.remaining ≤ ls.remaining) ∧
    (∀ (dir : Bool) (ls : LoopState) (r : SwapResult) (fin : SimState),
      0 < getActiveLiquidity ls.sim.liquidityTicks ls.sim.currentTick →
      swapIter dir ls = Sum.inr (r, fin) → r.steps.length = ls.steps.length + 1) ∧
    (∀ (dir : Bool) (ls : LoopState),
      getActiveLiquidity ls.sim.liquidityTicks ls.sim.currentTick ≤ 0 →
      swapIter dir ls = Sum.inr (starvedResult ls, ls.sim)) ∧
    (∀ (st : SimState) (amountIn : ℝ) (dir : Bool), (executeSwap st amountIn dir).isSome) := by
  refine ⟨?_, ?_, fun dir ls h => swapIter_starved dir ls h, ?_⟩
  · intro dir ls ls2 hrem hfee h
    by_cases hL : getActiveLiquidity ls.sim.liquidityTicks ls.sim.currentTick ≤ 0
    · rw [swapIter_starved dir ls hL] at h
      simp at h
    · cases hfind : findNextTick ls.sim.liquidityTicks ls.sim.currentTick dir with
      | none =>
        rw [swapIter_no_next dir ls hL hfind] at h
        simp at h
      | some nt =>
        by_cases hcmp : ls.remaining ≤ amountToNextTickVal dir ls
            (getActiveLiquidity ls.sim.liquidityTicks ls.sim.currentTick) nt
        · rw [swapIter_exhaust dir ls nt hL hfind hcmp] at h
          obtain rfl : exhaustRegion dir ls
              (getActiveLiquidity ls.sim.liquidityTicks ls.sim.currentTick) = ls2 := by
            injection h
          constructor
          · simp [exhaustRegion]
          · simp only [exhaustRegion]
            exact hrem.le
        · rw [swapIter_cross dir ls nt hL hfind hcmp] at h
          obtain rfl : crossTick dir ls
              (getActiveLiquidity ls.sim.liquidityTicks ls.sim.currentTick) nt
              (tickToPrice nt.index) (priceToSqrtPriceX96 (tickToPrice nt.index))
              (amountToNextTickVal dir ls
                (getActiveLiquidity ls.sim.liquidityTicks ls.sim.currentTick) nt) = ls2 := by
            injection h
          have hamt : 0 ≤ amountToNextTickVal dir ls
              (getActiveLiquidity ls.sim.liquidityTicks ls.sim.currentTick) nt :=
            amountToNextTickVal_nonneg dir ls _ nt (le_of_lt (not_le.mp hL)) hfee
          constructor
          · simp [crossTick]
          · simp only [crossTick]
            exact sub_le_self _ hamt
  · intro dir ls r fin hL h
    have hL2 : ¬ getActiveLiquidity ls.sim.liquidityTicks ls.sim.currentTick ≤ 0 :=
      not_le.mpr hL
    cases hfind : findNextTick ls.sim.liquidityTicks ls.sim.currentTick dir with
    | none =>
      rw [swapIter_no_next dir ls hL2 hfind] at h
      have h2 := Sum.inr.inj h
      have hr : finalResult (exhaustRegion dir ls
          (getActiveLiquidity ls.sim.liquidityTicks ls.sim.currentTick)) = r :=
        congrArg Prod.fst h2
      rw [← hr]
      simp [finalResult, exhaustRegion]
    | some nt =>
      by_cases hcmp : ls.remaining ≤ amountToNextTickVal dir ls
          (getActiveLiquidity ls.sim.liquidityTicks ls.sim.currentTick) nt
      · rw [swapIter_exhaust dir ls nt hL2 hfind hcmp] at h
        simp at h
      · rw [swapIter_cross dir ls nt hL2 hfind hcmp] at h
        simp at h
  · intro st amountIn dir
    unfold executeSwap
    apply swapGo_isSome
    unfold ticksBeyond
    cases dir
    · rw [if_neg (by simp)]
      exact Nat.lt_succ_of_le (List.countP_le_length _)
    · rw [if_pos rfl]
      exact Nat.lt_succ_of_le (List.countP_le_length _)

/-- Witness for C5's amended theorem: a non-crossing iteration on exhLS appends
one record without increasing remaining input, the starved iteration on
starvedLS returns at once, and executeSwap is total on starvedSim. -/
theorem swap_loop_behavior_witness :
    ((exhaustRegion true exhLS
        (getActiveLiquidity exhLS.sim.liquidityTicks exhLS.sim.currentTick)).steps.length
        = exhLS.steps.length + 1 ∧
      (exhaustRegion true exhLS
        (getActiveLiquidity exhLS.sim.liquidityTicks exhLS.sim.currentTick)).remaining
        ≤ exhLS.remaining) ∧
    swapIter true starvedLS = Sum.inr (starvedResult starvedLS, starvedLS.sim) ∧
    (executeSwap starvedSim 1 true).isSome := by
  have hA : getActiveLiquidity exhLS.sim.liquidityTicks exhLS.sim.currentTick = 1 := by
    simp [exhLS, exhSim, nt0, getActiveLiquidity]
  have hL : ¬ getActiveLiquidity exhLS.sim.liquidityTicks exhLS.sim.currentTick ≤ 0 := by
    rw [hA]; norm_num
  have hfind : findNextTick exhLS.sim.liquidityTicks exhLS.sim.currentTick true = some nt0 := by
    simp [exhLS, exhSim, nt0, findNextTick, List.find?]
  have hcmp : exhLS.remaining ≤ amountToNextTickVal true exhLS
      (getActiveLiquidity exhLS.sim.liquidityTicks exhLS.sim.currentTick) nt0 := by
    rw [hA]
    unfold amountToNextTickVal
    simp only [exhLS, exhSim, nt0, tickToPrice, priceToSqrtPriceX96, Q96, SCALE_FACTOR,
      if_true]
    rw [zpow_zero, Real.sqrt_one, one_mul, one_mul]
    rw [abs_of_nonneg (by norm_num)]
    norm_num
  refine ⟨swap_loop_behavior.1 true exhLS _ (by norm_num [exhLS]) (by norm_num [exhLS, exhSim])
      (swapIter_exhaust true exhLS nt0 hL hfind hcmp),
    swap_loop_behavior.2.2.1 true starvedLS
      (by simp [starvedLS, starvedSim, getActiveLiquidity]),
    swap_loop_behavior.2.2.2 starvedSim 1 true⟩

end UniswapV3

end
